import Mathlib

/-!
Verification of the tmAnalyse telemetry-dump utility.

This file gives a shallow embedding of the zone-time aggregation engine of
the repository (`tmDumpTelemetry.py`) and proves or refutes the design-level
claims about it.

Embedding conventions:
* Python integers are `Int`, Python floats are modelled as `Rat` (every
  arithmetic operation performed by the calibration code — one subtraction,
  one division, one multiplication — is exact on the values of interest).
* A Python function that can raise is embedded as `Except`; the exception
  classes actually raised by the code (`IndexError` from out-of-range list
  indexing, `ZeroDivisionError` from float division by zero) become the
  constructors of `CalibFailure`.
* The SQL queries issued by `dump_zone_totals` and
  `dump_zone_totals_exclusive` are embedded over an explicit list of
  `ZoneEvent` rows (the `tmzones` table) and an explicit `tmexpandedtext`
  table (`List TextRow`).  SQLite semantics are modelled faithfully:
  `LEFT JOIN` produces one `none` row for an unmatched parent, inner `JOIN`
  drops unmatched rows, integer division truncates toward zero
  (`Int.tdiv`), and division by zero yields NULL (`Option.none`), not an
  error.  `ORDER BY excl DESC` constrains the output only up to the order
  of tied rows, so the emitted ordering is modelled as a relation
  (`orderedOutput`) rather than a function.
-/

/-! ## Clock calibration (`get_clocks_per_second_from_rows`, lines 46-72) -/

/-- Failures the Python calibration code can actually raise: `IndexError`
from `rows[mid]` / `rows[mid + 1]` when the index is out of range, and
`ZeroDivisionError` from `float(dtsc) / float(dtick)` when `dtick == 0`. -/
inductive CalibFailure where
  | indexError
  | zeroDivisionError
deriving DecidableEq

/-- Embedding of `get_clocks_per_second_from_rows(rows, ticks_per_second)`.
`mid = len(rows) / 2` (Python 2 floor division), `a = rows[mid]`,
`b = rows[mid + 1]`, `dtick = b[0] - a[0]`, `dtsc = b[1] - a[1]`, and the
result is `float(dtsc) / float(dtick) * ticks_per_second`. -/
def getClocksPerSecondFromRows (rows : List (Int × Int)) (ticksPerSecond : Rat) :
    Except CalibFailure Rat :=
  match rows[rows.length / 2]?, rows[rows.length / 2 + 1]? with
  | some a, some b =>
      if b.1 - a.1 = 0 then .error .zeroDivisionError
      else .ok (((b.2 - a.2 : Int) : Rat) / ((b.1 - a.1 : Int) : Rat) * ticksPerSecond)
  | _, _ => .error .indexError

/-! ## The query builder (`build_query_string`, lines 5-43) -/

/-- Embedding of Python's `sep.join(items)`. -/
def pyJoin (sep : String) : List String → String
  | [] => ""
  | [s] => s
  | s :: t :: rest => s ++ sep ++ pyJoin sep (t :: rest)

/-- The output alias given to a dereferenced text column:
`'{name}_text'.format(name=name)`. -/
def textAlias (name : String) : String := name ++ "_text"

/-- One item of the SELECT list for a text column:
`'text{i}.content AS {name}_text'`. -/
def textSelectItem (i : Nat) (name : String) : String :=
  "text" ++ toString i ++ ".content AS " ++ textAlias name

/-- One LEFT JOIN clause for a text column:
`'LEFT JOIN tmexpandedtext AS text{i} ON text{i}.id = {col}'`. -/
def textJoinItem (i : Nat) (col : String) : String :=
  "LEFT JOIN tmexpandedtext AS text" ++ toString i ++ " ON text" ++ toString i ++
    ".id = " ++ col

/-- Embedding of `build_query_string(table, normal_columns, text_columns,
filter_clause)`: exactly the string produced by the Python format
expression on lines 40-43. -/
def buildQueryString (table : String) (normalColumns textColumns : List String)
    (filterClause : String) : String :=
  let normalPart := pyJoin ", " normalColumns
  let textPart := pyJoin ", " (textColumns.enum.map fun p => textSelectItem p.1 p.2)
  let joinClause := pyJoin " " (textColumns.enum.map fun p => textJoinItem p.1 p.2)
  "SELECT " ++ normalPart ++ ", " ++ textPart ++ " FROM " ++ table ++ " " ++
    joinClause ++ " " ++ filterClause

/-- A row of the `tmexpandedtext` string-dictionary table: `(id, content)`. -/
abbrev TextRow := Int × String

/-- All dictionary rows whose `id` equals `v` (the scan performed by a join
`ON text.id = v`). -/
def textMatches (dict : List TextRow) (v : Int) : List TextRow :=
  dict.filter (fun t => t.1 == v)

/-- Dictionary dereference: the content of the first row whose id is `v`,
if any. -/
def lookupText (dict : List TextRow) (v : Int) : Option String :=
  match textMatches dict v with
  | [] => none
  | t :: _ => some t.2

/-- A value in a result row of the builder's query: a plain integer column
or a (nullable) dereferenced text column. -/
inductive SqlVal where
  | int (i : Int)
  | text (s : Option String)
deriving DecidableEq

/-- SQLite semantics of `LEFT JOIN tmexpandedtext AS t ON t.id = v`
restricted to the joined column `t.content`: one row per match, or a
single NULL row when there is no match. -/
def leftJoinLookup (dict : List TextRow) (v : Int) : List (Option String) :=
  match textMatches dict v with
  | [] => [none]
  | ms => ms.map (fun t => some t.2)

/-- SQLite semantics of the chain of LEFT JOINs emitted by
`build_query_string`, one per text column: the cross product of the
per-column join results for a given source row `r`. -/
def textJoinCombos (dict : List TextRow) (r : String → Int) :
    List String → List (List (Option String))
  | [] => [[]]
  | c :: cs =>
      (leftJoinLookup dict (r c)).flatMap
        (fun o => (textJoinCombos dict r cs).map (fun os => o :: os))

/-- SQLite semantics of the query emitted by `build_query_string` (with an
empty filter clause): for each source row, the plain columns verbatim
followed by the joined `text{i}.content` columns. -/
def execSelect (dict : List TextRow) (rows : List (String → Int))
    (plains texts : List String) : List (List SqlVal) :=
  rows.flatMap (fun r =>
    (textJoinCombos dict r texts).map
      (fun os => plains.map (fun c => SqlVal.int (r c)) ++ os.map SqlVal.text))

/-- Rendering of the query that the specification describes for zero text
columns: a pure plain projection, with no dangling separators. -/
def specPurePlainProjection (table : String) (plains : List String)
    (filterClause : String) : String :=
  "SELECT " ++ pyJoin ", " plains ++ " FROM " ++ table ++ " " ++ filterClause

/-! ## Zone events and the two totals reports -/

/-- A row of the `tmzones` table, restricted to the columns the two totals
reports read. -/
structure ZoneEvent where
  start_tsc : Int
  end_tsc : Int
  depth : Int
  thread_id : Int
  fullname_id : Int
deriving DecidableEq

/-- The `end_tsc - start_tsc` duration of an event. -/
def durationOf (e : ZoneEvent) : Int := e.end_tsc - e.start_tsc

/-- The ON condition of the self-join in `dump_zone_totals_exclusive`
(lines 229-233): `c.start_tsc BETWEEN p.start_tsc AND p.end_tsc`,
`c.end_tsc <= p.end_tsc`, `c.depth = p.depth + 1`,
`c.thread_id = p.thread_id`. -/
def childMatch (p c : ZoneEvent) : Bool :=
  decide (p.start_tsc ≤ c.start_tsc) && decide (c.start_tsc ≤ p.end_tsc) &&
  decide (c.end_tsc ≤ p.end_tsc) && (c.depth == p.depth + 1) &&
  (c.thread_id == p.thread_id)

/-- SQLite semantics of `tmzones AS p LEFT JOIN tmzones AS c ON ...` for a
fixed parent `p`: all matching children, or a single NULL row when none
match. -/
def leftJoinChildren (evts : List ZoneEvent) (p : ZoneEvent) : List (Option ZoneEvent) :=
  match evts.filter (fun c => childMatch p c) with
  | [] => [none]
  | cs => cs.map some

/-- The `ZoneTotals` view (lines 181-196, with `do_separation_by_depth`
false as in the code): total `end_tsc - start_tsc` of all events sharing a
`fullname_id`. -/
def zoneTotal (evts : List ZoneEvent) (id : Int) : Int :=
  ((evts.filter (fun e => e.fullname_id == id)).map durationOf).sum

/-- `SELECT MAX(end_tsc) - MIN(start_tsc) FROM tmzones` (lines 164-166);
NULL on an empty table. -/
def elapsedTsc (evts : List ZoneEvent) : Option Int :=
  match evts with
  | [] => none
  | e :: es =>
      some ((es.foldl (fun m x => max m x.end_tsc) e.end_tsc) -
            (es.foldl (fun m x => min m x.start_tsc) e.start_tsc))

/-- SQLite semantics of `x * 100000 / elapsed` on integers: truncating
division, and NULL when the divisor is zero or NULL. -/
def scaleByElapsed (elapsed : Option Int) (x : Int) : Option Int :=
  match elapsed with
  | none => none
  | some el => if el = 0 then none else some (Int.tdiv (x * 100000) el)

/-- Append a value to an accumulator unless already present (used to model
both DISTINCT and the set of GROUP BY keys). -/
def addDistinct {α : Type} [DecidableEq α] (acc : List α) (v : α) : List α :=
  if v ∈ acc then acc else acc ++ [v]

/-- The distinct values of a list, first occurrence order. -/
def distinctVals {α : Type} [DecidableEq α] (l : List α) : List α :=
  l.foldl addDistinct []

/-- The joined row set of the main query of `dump_zone_totals_exclusive`
(lines 198-251) before grouping: parents left-joined with their direct
children, inner-joined with the string dictionary on
`t.id = p.fullname_id`.  (The `ZoneTotals` join adds exactly one row per
parent, keyed by `p.fullname_id`; its `total_tsc` value is recovered by
`groupTotal` below.) -/
def joinedRows (evts : List ZoneEvent) (dict : List TextRow) :
    List (ZoneEvent × Option ZoneEvent × String) :=
  evts.flatMap (fun p =>
    (leftJoinChildren evts p).flatMap (fun c =>
      (textMatches dict p.fullname_id).map (fun t => (p, c, t.2))))

/-- The GROUP BY keys of the main query: the distinct `name` values of the
joined rows. -/
def groupNames (evts : List ZoneEvent) (dict : List TextRow) : List String :=
  distinctVals ((joinedRows evts dict).map (fun r => r.2.2))

/-- The joined rows belonging to the group of a given name. -/
def groupRows (evts : List ZoneEvent) (dict : List TextRow) (n : String) :
    List (ZoneEvent × Option ZoneEvent × String) :=
  (joinedRows evts dict).filter (fun r => r.2.2 == n)

/-- `IFNULL(c.end_tsc - c.start_tsc, 0)` for the left-joined child column. -/
def ifnullChildDur : Option ZoneEvent → Int
  | none => 0
  | some c => durationOf c

/-- `SUM(IFNULL(c.end_tsc - c.start_tsc, 0))` over the rows of a name
group. -/
def groupChildSum (evts : List ZoneEvent) (dict : List TextRow) (n : String) : Int :=
  ((groupRows evts dict n).map (fun r => ifnullChildDur r.2.1)).sum

/-- The bare `zt.total_tsc` column of a name group.  SQLite returns the
value from one (unspecified) row of the group; every row of the group
carries `zoneTotal evts p.fullname_id` for its own parent `p`, and we take
the first row's value. -/
def groupTotal (evts : List ZoneEvent) (dict : List TextRow) (n : String) : Int :=
  match groupRows evts dict n with
  | [] => 0
  | r :: _ => zoneTotal evts r.1.fullname_id

/-- The cycles-level exclusive total of a name group, i.e. the
`zt.total_tsc - SUM(IFNULL(c.end_tsc - c.start_tsc, 0))` subterm of the
`excl` output column. -/
def groupExclCycles (evts : List ZoneEvent) (dict : List TextRow) (n : String) : Int :=
  groupTotal evts dict n - groupChildSum evts dict n

/-- One output row of `dump_zone_totals_exclusive`, in the column order of
the query (nullable ratio columns modelled as `Option Int`). -/
structure AggRow where
  excl : Option Int
  incl : Option Int
  num_inst : Nat
  name : String
  thread : Int
  num_parts : Nat
  min_depth : Int
  max_depth : Int
deriving DecidableEq

/-- The aggregate row of one name group. -/
def mkAggRow (evts : List ZoneEvent) (dict : List TextRow) (n : String) : AggRow :=
  let rg := groupRows evts dict n
  { excl := scaleByElapsed (elapsedTsc evts) (groupExclCycles evts dict n)
    incl := scaleByElapsed (elapsedTsc evts) (groupTotal evts dict n)
    num_inst := (distinctVals (rg.map (fun r => r.1.start_tsc))).length
    name := n
    thread := (match rg with | [] => 0 | r :: _ => r.1.thread_id)
    num_parts := rg.length
    min_depth := (match rg with | [] => 0 | r :: rs => rs.foldl (fun m x => min m x.1.depth) r.1.depth)
    max_depth := (match rg with | [] => 0 | r :: rs => rs.foldl (fun m x => max m x.1.depth) r.1.depth) }

/-- The grouped output rows of `dump_zone_totals_exclusive`, before the
final `ORDER BY excl DESC`. -/
def aggRows (evts : List ZoneEvent) (dict : List TextRow) : List AggRow :=
  (groupNames evts dict).map (mkAggRow evts dict)

/-- Comparison realising `ORDER BY excl DESC` on the nullable `excl`
column: larger values first, NULLs last (SQLite sorts NULLs last in
descending order). -/
def exclGEb : Option Int → Option Int → Bool
  | some x, some y => decide (y ≤ x)
  | some _, none => true
  | none, none => true
  | none, some _ => false

/-- Row comparison for `ORDER BY excl DESC`. -/
def rowGE (a b : AggRow) : Prop := exclGEb a.excl b.excl = true

instance : DecidableRel rowGE := fun a b => by unfold rowGE; infer_instance

/-- The set of output sequences admitted by the final query: SQL's
`ORDER BY excl DESC` determines the output only up to a permutation of the
grouped rows that is sorted by `excl` descending; the relative order of
tied rows is unspecified. -/
def orderedOutput (evts : List ZoneEvent) (dict : List TextRow)
    (out : List AggRow) : Prop :=
  List.Perm (aggRows evts dict) out ∧ List.Sorted rowGE out

/-- The joined row set of the `dump_zone_totals` query (lines 142-151):
`tmzones JOIN tmexpandedtext AS text ON tmzones.fullname_id == text.id`. -/
def totalsJoinRows (evts : List ZoneEvent) (dict : List TextRow) :
    List (ZoneEvent × String) :=
  evts.flatMap (fun e => (textMatches dict e.fullname_id).map (fun t => (e, t.2)))

/-- The grouped output of `dump_zone_totals` before its `ORDER BY time
DESC`: per distinct dereferenced name, the summed duration. -/
def zoneTotalsRows (evts : List ZoneEvent) (dict : List TextRow) : List (Int × String) :=
  (distinctVals ((totalsJoinRows evts dict).map (fun r => r.2))).map
    (fun n =>
      ((((totalsJoinRows evts dict).filter (fun r => r.2 == n)).map
          (fun r => durationOf r.1)).sum, n))

/-- The child condition as worded by the specification (step 2 of the
aggregation algorithm): same thread, depth one deeper, start within the
parent interval, end not after the parent end. -/
def specChildOf (p c : ZoneEvent) : Bool :=
  (c.thread_id == p.thread_id) && (c.depth == p.depth + 1) &&
  decide (p.start_tsc ≤ c.start_tsc) && decide (c.start_tsc ≤ p.end_tsc) &&
  decide (c.end_tsc ≤ p.end_tsc)

/-- The attributed-children total as worded by the specification: for every
parent instance `p` of the group, the durations of every event `c`
qualifying as its direct child, summed per instance and then over the
group. -/
def specAttributedChildren (evts : List ZoneEvent) (id : Int) : Int :=
  ((evts.filter (fun p => p.fullname_id == id)).map
    (fun p => ((evts.filter (fun c => specChildOf p c)).map durationOf).sum)).sum

/-! ## Concrete inputs used by witnesses and counterexamples -/

/-- The five calibration samples of Example 1 of the specification. -/
def exampleTicks : List (Int × Int) := [(1, 10), (2, 20), (3, 30), (4, 40), (5, 50)]

/-- The two events of Example 2 of the specification: A `[0,100]` at depth 0
and B `[10,60]` at depth 1, same thread. -/
def evA : List ZoneEvent := [⟨0, 100, 0, 0, 1⟩, ⟨10, 60, 1, 0, 2⟩]

/-- Dictionary naming the two events of `evA`. -/
def dictA : List TextRow := [(1, "A"), (2, "B")]

/-- A single instantaneous event, giving a degenerate capture with
`elapsed = 0`. -/
def evInstant : List ZoneEvent := [⟨5, 5, 0, 0, 1⟩]

/-- Dictionary for `evInstant`. -/
def dictInstant : List TextRow := [(1, "A")]

/-- A parent with a zero-duration child: the child `[5,5]` at depth 1 is
attributed to the parent `[0,10]` but contributes zero cycles. -/
def evZeroChild : List ZoneEvent := [⟨0, 10, 0, 0, 1⟩, ⟨5, 5, 1, 0, 2⟩]

/-- Dictionary for `evZeroChild`. -/
def dictZeroChild : List TextRow := [(1, "A"), (2, "B")]

/-- Two disjoint root zones of equal duration, producing two output rows
with identical `excl` ratios. -/
def evTied : List ZoneEvent := [⟨0, 10, 0, 0, 1⟩, ⟨20, 30, 0, 0, 2⟩]

/-- Dictionary for `evTied`. -/
def dictTied : List TextRow := [(1, "X"), (2, "Y")]

/-- A named parent `[0,100]` with a child `[10,60]` whose `fullname_id` 99
has no dictionary entry. -/
def evOrphan : List ZoneEvent := [⟨0, 100, 0, 0, 1⟩, ⟨10, 60, 1, 0, 99⟩]

/-- Dictionary for `evOrphan`: only the parent's name id 1 is present. -/
def dictOrphan : List TextRow := [(1, "A")]

/-! ## Calibration theorems -/

/-- Any input for which the second central index `len / 2 + 1` is out of
range makes the Python code raise `IndexError` at `rows[mid]` or
`rows[mid + 1]`. -/
theorem getClocks_indexError_of_short (rows : List (Int × Int)) (tps : Rat)
    (h : rows.length ≤ rows.length / 2 + 1) :
    getClocksPerSecondFromRows rows tps = .error .indexError := by
  have h2 : rows[rows.length / 2 + 1]? = none := List.getElem?_eq_none h
  unfold getClocksPerSecondFromRows
  rw [h2]
  rcases rows[rows.length / 2]? with _ | a <;> rfl

/-- C2: for every tick-ordered sample list with at least one sample after
index `⌊len/2⌋`, calibration reads the sample at index `⌊len/2⌋` and the
one immediately after it and returns `(Δcycles / Δtick) * ticks_per_second`. -/
theorem c2_central_pair (rows : List (Int × Int)) (tps : Rat)
    (hsorted : rows.Pairwise (fun x y => x.1 < y.1))
    (hlen : rows.length / 2 + 1 < rows.length) :
    ∃ a b, rows[rows.length / 2]? = some a ∧ rows[rows.length / 2 + 1]? = some b ∧
      getClocksPerSecondFromRows rows tps =
        .ok (((b.2 - a.2 : Int) : Rat) / ((b.1 - a.1 : Int) : Rat) * tps) := by
  have hmid : rows.length / 2 < rows.length := by omega
  refine ⟨rows[rows.length / 2], rows[rows.length / 2 + 1],
    List.getElem?_eq_getElem hmid, List.getElem?_eq_getElem hlen, ?_⟩
  have hlt : (rows[rows.length / 2]).1 < (rows[rows.length / 2 + 1]).1 := by
    have := List.pairwise_iff_get.mp hsorted ⟨rows.length / 2, hmid⟩
      ⟨rows.length / 2 + 1, hlen⟩ (Fin.mk_lt_mk.mpr (Nat.lt_succ_self _))
    simpa using this
  have hne : (rows[rows.length / 2 + 1]).1 - (rows[rows.length / 2]).1 ≠ 0 := by omega
  unfold getClocksPerSecondFromRows
  rw [List.getElem?_eq_getElem hmid, List.getElem?_eq_getElem hlen]
  simp [hne]

/-- Witness for C2 at Example 1 of the specification: the central pair is
`(3,30),(4,40)` and the result is `1000.0`. -/
theorem c2_witness :
    (∃ a b, exampleTicks[exampleTicks.length / 2]? = some a ∧
        exampleTicks[exampleTicks.length / 2 + 1]? = some b ∧
        getClocksPerSecondFromRows exampleTicks 100 =
          .ok (((b.2 - a.2 : Int) : Rat) / ((b.1 - a.1 : Int) : Rat) * 100)) ∧
    getClocksPerSecondFromRows exampleTicks 100 = .ok 1000 :=
  ⟨c2_central_pair exampleTicks 100 (by decide) (by decide),
   by norm_num [getClocksPerSecondFromRows, exampleTicks]⟩

/-- C3 (amended): a zero tick delta between the two chosen central samples
makes calibration fail with `ZeroDivisionError` (the error class the Python
code actually raises; no `DegenerateCalibrationError` class exists in the
repository); and when the total elapsed cycles are zero the exclusive-totals
aggregation does not fail at all — SQLite division by zero yields NULL, so
every output row's ratio columns are NULL. -/
theorem c3_degenerate_behavior :
    (∀ (rows : List (Int × Int)) (tps : Rat) (a b : Int × Int),
        rows[rows.length / 2]? = some a →
        rows[rows.length / 2 + 1]? = some b →
        b.1 - a.1 = 0 →
        getClocksPerSecondFromRows rows tps = .error .zeroDivisionError) ∧
    (∀ (evts : List ZoneEvent) (dict : List TextRow),
        elapsedTsc evts = some 0 →
        ∀ r ∈ aggRows evts dict, r.excl = none ∧ r.incl = none) := by
  constructor
  · intro rows tps a b ha hb htick
    unfold getClocksPerSecondFromRows
    rw [ha, hb]
    simp [htick]
  · intro evts dict h r hr
    rcases List.mem_map.mp hr with ⟨n, hn, rfl⟩
    constructor <;> simp [mkAggRow, h, scaleByElapsed]

/-- Witness for C3: equal central ticks raise `ZeroDivisionError`; the
instantaneous capture `evInstant` has `elapsed = 0` and NULL ratio columns. -/
theorem c3_witness :
    getClocksPerSecondFromRows [(1, 10), (1, 20), (1, 30)] 100 =
      .error .zeroDivisionError ∧
    (∀ r ∈ aggRows evInstant dictInstant, r.excl = none ∧ r.incl = none) :=
  ⟨c3_degenerate_behavior.1 [(1, 10), (1, 20), (1, 30)] 100 (1, 20) (1, 30) rfl rfl rfl,
   c3_degenerate_behavior.2 evInstant dictInstant (by decide)⟩

/-- Counterexample for C3 as stated: on a degenerate single-instant capture
(`elapsed = 0`) the exclusive-totals aggregation does not fail with any
`DegenerateCalibrationError`-class error — it successfully emits a row whose
ratio columns are NULL. -/
theorem c3_counterexample :
    elapsedTsc evInstant = some 0 ∧
    aggRows evInstant dictInstant = [⟨none, none, 1, "A", 0, 1, 0, 0⟩] :=
  ⟨rfl, by decide⟩

/-- C4 (amended): whenever fewer than 2 samples remain from the midpoint
onward, calibration fails with Python's `IndexError` (index out of range),
not with an `InsufficientSamplesError` — no such class exists in the
repository. -/
theorem c4_insufficient_becomes_index_error (rows : List (Int × Int)) (tps : Rat)
    (h : rows.length < rows.length / 2 + 2) :
    getClocksPerSecondFromRows rows tps = .error .indexError :=
  getClocks_indexError_of_short rows tps (by omega)

/-- Witness for C4 at the empty sample list. -/
theorem c4_witness : getClocksPerSecondFromRows [] 100 = .error .indexError :=
  c4_insufficient_becomes_index_error [] 100 (by decide)

/-- Counterexample for C4 as stated: a single tick sample makes the code
fail with `IndexError`, and `IndexError` and `ZeroDivisionError` are the
only failures this code can produce — there is no `InsufficientSamplesError`
in the repository, so the claim's stated error class is wrong. -/
theorem c4_counterexample :
    getClocksPerSecondFromRows [(1, 10)] 100 = .error .indexError ∧
    ∀ e : CalibFailure, e = .indexError ∨ e = .zeroDivisionError :=
  ⟨rfl, fun e => by cases e with
    | indexError => exact Or.inl rfl
    | zeroDivisionError => exact Or.inr rfl⟩

/-- C8: on an ordered sample sequence of exactly 2 tick samples the
midpoint index is 1 and the code accesses index 2, so calibration fails
with an index-out-of-range error. -/
theorem c8_two_samples_index_error (rows : List (Int × Int)) (tps : Rat)
    (hsorted : rows.Pairwise (fun x y => x.1 < y.1))
    (hlen : rows.length = 2) :
    getClocksPerSecondFromRows rows tps = .error .indexError :=
  getClocks_indexError_of_short rows tps (by omega)

/-- Witness for C8 at a two-sample input. -/
theorem c8_witness :
    getClocksPerSecondFromRows [(1, 10), (2, 20)] 100 = .error .indexError :=
  c8_two_samples_index_error [(1, 10), (2, 20)] 100 (by decide) rfl

/-! ## Query-builder theorems -/

/-- Joining onto a nonempty tail prepends the head plus one separator. -/
theorem pyJoin_cons_ne (sep x : String) (b : List String) (hb : b ≠ []) :
    pyJoin sep (x :: b) = x ++ sep ++ pyJoin sep b := by
  cases b with
  | nil => exact absurd rfl hb
  | cons y ys => rfl

/-- Python's `sep.join` distributes over concatenation of nonempty lists. -/
theorem pyJoin_append (sep x : String) (xs b : List String) (hb : b ≠ []) :
    pyJoin sep ((x :: xs) ++ b) = pyJoin sep (x :: xs) ++ sep ++ pyJoin sep b := by
  induction xs generalizing x with
  | nil =>
    simp only [List.cons_append, List.nil_append]
    rw [pyJoin_cons_ne sep x b hb]
    rfl
  | cons y ys ih =>
    have h1 : pyJoin sep (x :: y :: ys) = x ++ sep ++ pyJoin sep (y :: ys) := rfl
    have h2 : (x :: y :: ys) ++ b = x :: ((y :: ys) ++ b) := rfl
    rw [h2, pyJoin_cons_ne sep x ((y :: ys) ++ b) (by simp), ih y, h1]
    simp [String.append_assoc]

/-- The string built by `build_query_string`, written with the SELECT items
and JOIN clauses as explicit lists. -/
theorem buildQueryString_eq (table : String) (ps ts : List String) (f : String) :
    buildQueryString table ps ts f =
      "SELECT " ++ pyJoin ", " ps ++ ", " ++
        pyJoin ", " (ts.enum.map fun p => textSelectItem p.1 p.2) ++ " FROM " ++
        table ++ " " ++ pyJoin " " (ts.enum.map fun p => textJoinItem p.1 p.2) ++
        " " ++ f := rfl

/-- A dictionary scan for an id absent from the dictionary finds nothing. -/
theorem textMatches_nil_of_not_mem (dict : List TextRow) (v : Int)
    (h : v ∉ dict.map Prod.fst) : textMatches dict v = [] := by
  unfold textMatches
  rw [List.filter_eq_nil_iff]
  intro t ht
  simp only [beq_iff_eq]
  intro hEq
  exact h (List.mem_map.mpr ⟨t, ht, hEq⟩)

/-- Under unique dictionary ids, a scan finds nothing or a single row. -/
theorem textMatches_nil_or_single (dict : List TextRow) (v : Int)
    (hids : (dict.map Prod.fst).Nodup) :
    textMatches dict v = [] ∨ ∃ t, textMatches dict v = [t] := by
  induction dict with
  | nil => exact Or.inl rfl
  | cons t ds ih =>
    simp only [List.map_cons, List.nodup_cons] at hids
    by_cases ht : t.1 = v
    · right
      refine ⟨t, ?_⟩
      unfold textMatches
      rw [List.filter_cons, if_pos (by simpa using ht)]
      have : textMatches ds v = [] :=
        textMatches_nil_of_not_mem ds v (by rw [← ht]; exact hids.1)
      unfold textMatches at this
      rw [this]
    · have : textMatches (t :: ds) v = textMatches ds v := by
        unfold textMatches
        rw [List.filter_cons, if_neg (by simpa using ht)]
      rw [this]
      exact ih hids.2

/-- Under unique dictionary ids the LEFT JOIN onto the dictionary yields
exactly one row per source row: the dereferenced content or NULL. -/
theorem leftJoinLookup_eq (dict : List TextRow) (v : Int)
    (hids : (dict.map Prod.fst).Nodup) :
    leftJoinLookup dict v = [lookupText dict v] := by
  rcases textMatches_nil_or_single dict v hids with h | ⟨t, h⟩ <;>
    simp [leftJoinLookup, lookupText, h]

/-- Under unique dictionary ids the chain of LEFT JOINs yields exactly one
combination per source row: the per-column dereferences in order. -/
theorem textJoinCombos_eq (dict : List TextRow) (r : String → Int)
    (ts : List String) (hids : (dict.map Prod.fst).Nodup) :
    textJoinCombos dict r ts = [ts.map (fun c => lookupText dict (r c))] := by
  induction ts with
  | nil => rfl
  | cons c cs ih =>
    simp [textJoinCombos, leftJoinLookup_eq dict (r c) hids, ih]

/-- Under unique dictionary ids, executing the emitted query yields one row
per source row: plain columns verbatim, then the dereferenced strings of
the text columns, in the given order. -/
theorem execSelect_eq (dict : List TextRow) (rows : List (String → Int))
    (ps ts : List String) (hids : (dict.map Prod.fst).Nodup) :
    execSelect dict rows ps ts =
      rows.map (fun r =>
        ps.map (fun c => SqlVal.int (r c)) ++
        ts.map (fun c => SqlVal.text (lookupText dict (r c)))) := by
  unfold execSelect
  induction rows with
  | nil => rfl
  | cons r rs ih =>
    rw [List.flatMap_cons, textJoinCombos_eq dict r ts hids, ih]
    simp [List.map_map]

/-- C5 (amended): for nonempty plain and text column lists the builder
emits the SELECT items as the plain columns followed by the dereference
items, in order, and the emitted join-projection shape yields the plain
values verbatim followed by the dereferenced strings; with zero text
columns the emitted string is not the pure plain projection (it has a
dangling comma, see the counterexample). -/
theorem c5_builder_semantics (table : String) (ps ts : List String) (f : String)
    (dict : List TextRow) (rows : List (String → Int))
    (hps : ps ≠ []) (hts : ts ≠ [])
    (hids : (dict.map Prod.fst).Nodup) :
    buildQueryString table ps ts f =
      "SELECT " ++
        pyJoin ", " (ps ++ ts.enum.map fun p => textSelectItem p.1 p.2) ++
        " FROM " ++ table ++ " " ++
        pyJoin " " (ts.enum.map fun p => textJoinItem p.1 p.2) ++ " " ++ f ∧
    execSelect dict rows ps ts =
      rows.map (fun r =>
        ps.map (fun c => SqlVal.int (r c)) ++
        ts.map (fun c => SqlVal.text (lookupText dict (r c)))) := by
  constructor
  · rcases ps with _ | ⟨x, xs⟩
    · exact absurd rfl hps
    · have hb : (ts.enum.map fun p => textSelectItem p.1 p.2) ≠ [] := by
        intro h
        have := congrArg List.length h
        simp only [List.length_map, List.enum_length, List.length_nil] at this
        exact hts (List.length_eq_zero.mp this)
      rw [buildQueryString_eq, pyJoin_append ", " x xs _ hb]
      simp [String.append_assoc]
  · exact execSelect_eq dict rows ps ts hids

/-- Witness for C5 at a concrete query with one plain and one text column,
a one-entry dictionary and one source row. -/
theorem c5_witness :
    buildQueryString "myTable" ["col1"] ["textCol1"] "filter" =
      "SELECT " ++
        pyJoin ", " (["col1"] ++ ["textCol1"].enum.map fun p => textSelectItem p.1 p.2) ++
        " FROM " ++ "myTable" ++ " " ++
        pyJoin " " (["textCol1"].enum.map fun p => textJoinItem p.1 p.2) ++ " " ++ "filter" ∧
    execSelect [(1, "hello")] [fun c => if c = "col1" then 7 else 1]
        ["col1"] ["textCol1"] =
      [fun c => if c = "col1" then 7 else 1].map (fun r =>
        ["col1"].map (fun c => SqlVal.int (r c)) ++
        ["textCol1"].map (fun c => SqlVal.text (lookupText [(1, "hello")] (r c)))) :=
  c5_builder_semantics "myTable" ["col1"] ["textCol1"] "filter"
    [(1, "hello")] [fun c => if c = "col1" then 7 else 1]
    (by decide) (by decide) (by decide)

/-- Counterexample for C5 as stated: with zero text columns the builder
emits `SELECT col1, col2,  FROM myTable  ` — a dangling comma before FROM,
not the valid pure plain projection the claim promises. -/
theorem c5_counterexample :
    buildQueryString "myTable" ["col1", "col2"] [] "" =
      "SELECT col1, col2,  FROM myTable  " ∧
    buildQueryString "myTable" ["col1", "col2"] [] "" ≠
      specPurePlainProjection "myTable" ["col1", "col2"] "" :=
  ⟨rfl, by decide⟩

/-- C9: every dereferenced text column is projected under the alias
`{name}_text`, which never equals the input column name, and the emitted
string projects exactly those aliased items after the plain columns. -/
theorem c9_text_alias_renaming (table : String) (ps ts : List String) (f : String)
    (hts : ts ≠ []) :
    (∀ name ∈ ts, textAlias name ≠ name) ∧
    buildQueryString table ps ts f =
      "SELECT " ++ pyJoin ", " ps ++ ", " ++
        pyJoin ", " (ts.enum.map fun p => textSelectItem p.1 p.2) ++ " FROM " ++
        table ++ " " ++ pyJoin " " (ts.enum.map fun p => textJoinItem p.1 p.2) ++
        " " ++ f := by
  refine ⟨fun name _ h => ?_, buildQueryString_eq table ps ts f⟩
  have h2 := congrArg String.length h
  simp only [textAlias, String.length_append] at h2
  have h5 : "_text".length = 5 := rfl
  rw [h5] at h2
  omega

/-- Witness for C9 at the column lists used by `dump_zones`. -/
theorem c9_witness :
    (∀ name ∈ ["fullname_id", "filename_id", "path_id"], textAlias name ≠ name) ∧
    buildQueryString "tmzones" ["start_tsc", "end_tsc"]
        ["fullname_id", "filename_id", "path_id"] "" =
      "SELECT " ++ pyJoin ", " ["start_tsc", "end_tsc"] ++ ", " ++
        pyJoin ", " ((["fullname_id", "filename_id", "path_id"] : List String).enum.map
          fun p => textSelectItem p.1 p.2) ++ " FROM " ++
        "tmzones" ++ " " ++
        pyJoin " " ((["fullname_id", "filename_id", "path_id"] : List String).enum.map
          fun p => textJoinItem p.1 p.2) ++ " " ++ "" :=
  c9_text_alias_renaming "tmzones" ["start_tsc", "end_tsc"]
    ["fullname_id", "filename_id", "path_id"] "" (by decide)

/-! ## Aggregation theorems -/

/-- Summing a concatenation of blocks equals summing per-block sums. -/
theorem sum_flatMapInt {α : Type} (l : List α) (f : α → List Int) :
    (l.flatMap f).sum = (l.map fun a => (f a).sum).sum := by
  induction l with
  | nil => rfl
  | cons x xs ih => simp [List.flatMap_cons, List.sum_append, ih]

/-- Flat-mapping singletons is mapping. -/
theorem flatMap_singletonFun {α β : Type} (l : List α) (f : α → β) :
    (l.flatMap fun a => [f a]) = l.map f := by
  induction l with
  | nil => rfl
  | cons x xs ih => simp [List.flatMap_cons, ih]

/-- A flat-map producing `[]` off a condition is a flat-map over the
filtered list. -/
theorem flatMap_if_filter {α β : Type} (l : List α) (q : α → Bool) (g : α → List β) :
    (l.flatMap fun a => if q a then g a else []) = (l.filter q).flatMap g := by
  induction l with
  | nil => rfl
  | cons x xs ih =>
    cases hq : q x <;>
      simp [List.flatMap_cons, List.filter_cons, hq, ih]

/-- Membership in a distinct-accumulating fold. -/
theorem mem_foldl_addDistinct {α : Type} [DecidableEq α] (l : List α) (acc : List α)
    (x : α) : x ∈ l.foldl addDistinct acc ↔ x ∈ acc ∨ x ∈ l := by
  induction l generalizing acc with
  | nil => simp
  | cons y ys ih =>
    rw [List.foldl_cons, ih]
    unfold addDistinct
    by_cases h : y ∈ acc
    · rw [if_pos h]
      constructor
      · rintro (hx | hx)
        · exact Or.inl hx
        · exact Or.inr (List.mem_cons_of_mem y hx)
      · rintro (hx | hx)
        · exact Or.inl hx
        · rcases List.mem_cons.mp hx with rfl | hx
          · exact Or.inl h
          · exact Or.inr hx
    · rw [if_neg h]
      simp only [List.mem_append, List.mem_singleton, List.mem_cons]
      tauto

/-- `distinctVals` keeps exactly the members of the list. -/
theorem mem_distinctVals {α : Type} [DecidableEq α] (l : List α) (x : α) :
    x ∈ distinctVals l ↔ x ∈ l := by
  unfold distinctVals
  rw [mem_foldl_addDistinct]
  simp

/-- The LEFT JOIN of children always produces at least one row per parent. -/
theorem leftJoinChildren_ne_nil (evts : List ZoneEvent) (p : ZoneEvent) :
    leftJoinChildren evts p ≠ [] := by
  unfold leftJoinChildren
  rcases hf : evts.filter (fun c => childMatch p c) with _ | ⟨c, cs⟩ <;> simp

/-- A row of the children LEFT JOIN is NULL or an event matching the ON
condition. -/
theorem leftJoinChildren_cases {evts : List ZoneEvent} {p : ZoneEvent}
    {o : Option ZoneEvent} (h : o ∈ leftJoinChildren evts p) :
    o = none ∨ ∃ c, o = some c ∧ c ∈ evts ∧ childMatch p c = true := by
  unfold leftJoinChildren at h
  rcases hf : evts.filter (fun c => childMatch p c) with _ | ⟨c, cs⟩
  · rw [hf] at h
    simp at h
    exact Or.inl h
  · rw [hf] at h
    simp only [List.map_cons, List.mem_cons, List.mem_map] at h
    right
    rcases h with h | ⟨x, hx, rfl⟩
    · have hc : c ∈ evts.filter (fun c => childMatch p c) := by
        rw [hf]; exact List.mem_cons_self c cs
      rcases List.mem_filter.mp hc with ⟨hce, hcm⟩
      exact ⟨c, h, hce, hcm⟩
    · have hx2 : x ∈ evts.filter (fun c => childMatch p c) := by
        rw [hf]; exact List.mem_cons_of_mem c hx
      rcases List.mem_filter.mp hx2 with ⟨hce, hcm⟩
      exact ⟨x, rfl, hce, hcm⟩

/-- Summing `IFNULL(c.end_tsc - c.start_tsc, 0)` over the LEFT JOIN rows of
one parent equals summing the durations of its matching children: the NULL
row contributes 0. -/
theorem leftJoin_ifnull_sum (evts : List ZoneEvent) (p : ZoneEvent) :
    ((leftJoinChildren evts p).map ifnullChildDur).sum =
      ((evts.filter (fun c => childMatch p c)).map durationOf).sum := by
  unfold leftJoinChildren
  rcases hf : evts.filter (fun c => childMatch p c) with _ | ⟨c, cs⟩
  · simp [ifnullChildDur]
  · simp only [List.map_cons, List.map_map]
    have hcomp : ifnullChildDur ∘ some = durationOf := funext fun x => rfl
    rw [hcomp]
    rfl

/-- Structure of a joined row of the main exclusive-totals query. -/
theorem joinedRows_mem_elim {evts : List ZoneEvent} {dict : List TextRow}
    {r : ZoneEvent × Option ZoneEvent × String} (h : r ∈ joinedRows evts dict) :
    r.1 ∈ evts ∧ r.2.1 ∈ leftJoinChildren evts r.1 ∧
      ∃ t ∈ dict, t.1 = r.1.fullname_id ∧ r.2.2 = t.2 := by
  unfold joinedRows at h
  rcases List.mem_flatMap.mp h with ⟨p, hp, h2⟩
  rcases List.mem_flatMap.mp h2 with ⟨c, hc, h3⟩
  rcases List.mem_map.mp h3 with ⟨t, ht, rfl⟩
  unfold textMatches at ht
  rcases List.mem_filter.mp ht with ⟨htd, hteq⟩
  exact ⟨hp, hc, t, htd, beq_iff_eq.mp hteq, rfl⟩

/-- The code's child condition coincides with the specification's wording
of the direct-child condition. -/
theorem childMatch_eq_spec (p c : ZoneEvent) : childMatch p c = specChildOf p c := by
  rw [Bool.eq_iff_iff]
  simp only [childMatch, specChildOf, Bool.and_eq_true, decide_eq_true_eq, beq_iff_eq]
  tauto

/-- With unique ids, the dictionary scan for the id of entry `(id, n)`
finds exactly that entry. -/
theorem textMatches_single (dict : List TextRow) (id : Int) (n : String) :
    (dict.map Prod.fst).Nodup → (id, n) ∈ dict → textMatches dict id = [(id, n)] := by
  induction dict with
  | nil =>
    intro _ hmem
    simp at hmem
  | cons t ds ih =>
    intro hids hmem
    simp only [List.map_cons, List.nodup_cons] at hids
    rcases List.mem_cons.mp hmem with h | h
    · subst h
      unfold textMatches
      rw [List.filter_cons, if_pos (by simp)]
      have hnil : textMatches ds id = [] := textMatches_nil_of_not_mem ds id hids.1
      unfold textMatches at hnil
      rw [hnil]
    · have hid : id ∈ ds.map Prod.fst := List.mem_map.mpr ⟨(id, n), h, rfl⟩
      have hne : ¬(t.1 == id) = true := by
        simp only [beq_iff_eq]
        intro hEq
        exact hids.1 (hEq ▸ hid)
      have hstep : textMatches (t :: ds) id = textMatches ds id := by
        unfold textMatches
        rw [List.filter_cons, if_neg hne]
      rw [hstep]
      exact ih hids.2 h

/-- With unique ids mapping injectively to contents, the rows grouped under
the name `n` of dictionary entry `(id, n)` are exactly the left-joined
child rows of the parents whose `fullname_id` is `id`. -/
theorem groupRows_eq (evts : List ZoneEvent) (dict : List TextRow) (id : Int)
    (n : String) (hmem : (id, n) ∈ dict) (hids : (dict.map Prod.fst).Nodup)
    (hinj : ∀ t1 ∈ dict, ∀ t2 ∈ dict, t1.2 = t2.2 → t1.1 = t2.1) :
    groupRows evts dict n =
      (evts.filter (fun p => p.fullname_id == id)).flatMap
        (fun p => (leftJoinChildren evts p).map (fun c => (p, c, n))) := by
  have hsingle : textMatches dict id = [(id, n)] := textMatches_single dict id n hids hmem
  have hper : ∀ p : ZoneEvent,
      (((leftJoinChildren evts p).flatMap fun c =>
          (textMatches dict p.fullname_id).map fun t => (p, c, t.2)).filter
        (fun r => r.2.2 == n)) =
      if p.fullname_id == id then (leftJoinChildren evts p).map (fun c => (p, c, n))
      else [] := by
    intro p
    by_cases hp : p.fullname_id = id
    · rw [if_pos (by simpa using hp), hp, hsingle]
      have hsf : ((leftJoinChildren evts p).flatMap fun c =>
          ([(id, n)] : List TextRow).map fun t => (p, c, t.2)) =
          (leftJoinChildren evts p).map (fun c => (p, c, n)) := by
        simp only [List.map_cons, List.map_nil]
        exact flatMap_singletonFun (leftJoinChildren evts p) (fun c => (p, c, n))
      rw [hsf, List.filter_eq_self.mpr]
      intro r hr
      rcases List.mem_map.mp hr with ⟨c, _, rfl⟩
      simp
    · rw [if_neg (by simpa using hp), List.filter_eq_nil_iff.mpr]
      intro r hr
      rcases List.mem_flatMap.mp hr with ⟨c, hc, hmap⟩
      rcases List.mem_map.mp hmap with ⟨t, ht, rfl⟩
      unfold textMatches at ht
      rcases List.mem_filter.mp ht with ⟨htd, hteq⟩
      simp only [beq_iff_eq]
      intro hn2
      exact hp (by rw [← beq_iff_eq.mp hteq]; exact hinj t htd (id, n) hmem hn2)
  unfold groupRows joinedRows
  rw [List.filter_flatMap]
  simp only [hper]
  exact flatMap_if_filter evts (fun p => p.fullname_id == id)
    (fun p => (leftJoinChildren evts p).map (fun c => (p, c, n)))

/-- C1: with a deduplicated dictionary (unique ids, injective contents),
the name group of entry `(id, n)` reports a total equal to the first-pass
group total of `id`, a child sum equal to the specification's per-parent
double sum of direct-child durations, and an exclusive total equal to their
difference. -/
theorem c1_exclusive_formula (evts : List ZoneEvent) (dict : List TextRow)
    (id : Int) (n : String)
    (hmem : (id, n) ∈ dict) (hids : (dict.map Prod.fst).Nodup)
    (hinj : ∀ t1 ∈ dict, ∀ t2 ∈ dict, t1.2 = t2.2 → t1.1 = t2.1) :
    groupTotal evts dict n = zoneTotal evts id ∧
    groupChildSum evts dict n = specAttributedChildren evts id ∧
    groupExclCycles evts dict n = zoneTotal evts id - specAttributedChildren evts id := by
  have hgr := groupRows_eq evts dict id n hmem hids hinj
  have htotal : groupTotal evts dict n = zoneTotal evts id := by
    rcases hf : evts.filter (fun p => p.fullname_id == id) with _ | ⟨p, ps⟩
    · have hempty : groupRows evts dict n = [] := by rw [hgr, hf]; rfl
      have hz : zoneTotal evts id = 0 := by
        unfold zoneTotal
        rw [hf]
        rfl
      simp only [groupTotal, hempty, hz]
    · rcases hlj : leftJoinChildren evts p with _ | ⟨o, os⟩
      · exact absurd hlj (leftJoinChildren_ne_nil evts p)
      · have hcons : groupRows evts dict n =
            (p, o, n) :: (os.map (fun c => (p, c, n)) ++
              ps.flatMap fun p2 => (leftJoinChildren evts p2).map fun c => (p2, c, n)) := by
          rw [hgr, hf, List.flatMap_cons, hlj]
          rfl
        have hpmem : p ∈ evts.filter (fun p => p.fullname_id == id) := by
          rw [hf]
          exact List.mem_cons_self p ps
        have hpid := beq_iff_eq.mp (List.mem_filter.mp hpmem).2
        simp only [groupTotal, hcons]
        rw [hpid]
  have hchild : groupChildSum evts dict n = specAttributedChildren evts id := by
    unfold groupChildSum specAttributedChildren
    rw [hgr, List.map_flatMap, sum_flatMapInt]
    simp only [List.map_map]
    congr 1
    apply List.map_congr_left
    intro p _
    have hcomp : ((leftJoinChildren evts p).map
        ((fun r : ZoneEvent × Option ZoneEvent × String => ifnullChildDur r.2.1) ∘
          (fun c => (p, c, n)))).sum =
        ((leftJoinChildren evts p).map ifnullChildDur).sum := rfl
    rw [hcomp, leftJoin_ifnull_sum]
    simp only [childMatch_eq_spec]
  exact ⟨htotal, hchild, by unfold groupExclCycles; rw [htotal, hchild]⟩

/-- Witness for C1 at Example 2 of the specification: A `[0,100]` depth 0
with child B `[10,60]` depth 1 gives A inclusive 100 and exclusive 50, and
B inclusive 50 and exclusive 50. -/
theorem c1_witness :
    (groupTotal evA dictA "A" = zoneTotal evA 1 ∧
     groupChildSum evA dictA "A" = specAttributedChildren evA 1 ∧
     groupExclCycles evA dictA "A" = zoneTotal evA 1 - specAttributedChildren evA 1) ∧
    zoneTotal evA 1 = 100 ∧ groupExclCycles evA dictA "A" = 50 ∧
    zoneTotal evA 2 = 50 ∧ groupExclCycles evA dictA "B" = 50 :=
  ⟨c1_exclusive_formula evA dictA 1 "A" (by decide) (by decide) (by decide),
   by decide, by decide, by decide, by decide⟩

/-- With all event durations non-negative, the attributed-children sum of
any name group is non-negative. -/
theorem groupChildSum_nonneg (evts : List ZoneEvent) (dict : List TextRow)
    (n : String) (hdur : ∀ e ∈ evts, e.start_tsc ≤ e.end_tsc) :
    0 ≤ groupChildSum evts dict n := by
  unfold groupChildSum
  apply List.sum_nonneg
  intro x hx
  rcases List.mem_map.mp hx with ⟨r, hr, rfl⟩
  have hjm : r ∈ joinedRows evts dict := by
    unfold groupRows at hr
    exact (List.mem_filter.mp hr).1
  rcases joinedRows_mem_elim hjm with ⟨_, hlj, _⟩
  rcases leftJoinChildren_cases hlj with h | ⟨c, hc, hcm, _⟩
  · rw [h]
    exact le_refl 0
  · rw [hc]
    simp only [ifnullChildDur, durationOf]
    have := hdur c hcm
    omega

/-- C6 (amended): with non-negative event durations, every reported name
group's exclusive cycles are at most its total cycles, with equality
exactly when the summed durations of its attributed children are zero
(which holds in particular when no attributed children exist, but also
when every attributed child has zero duration). -/
theorem c6_excl_le_total (evts : List ZoneEvent) (dict : List TextRow) (n : String)
    (hdur : ∀ e ∈ evts, e.start_tsc ≤ e.end_tsc)
    (hn : n ∈ (aggRows evts dict).map AggRow.name) :
    groupExclCycles evts dict n ≤ groupTotal evts dict n ∧
    (groupExclCycles evts dict n = groupTotal evts dict n ↔
      groupChildSum evts dict n = 0) := by
  have h0 := groupChildSum_nonneg evts dict n hdur
  unfold groupExclCycles
  omega

/-- Witness for C6 at Example 2 of the specification, group "A". -/
theorem c6_witness :
    groupExclCycles evA dictA "A" ≤ groupTotal evA dictA "A" ∧
    (groupExclCycles evA dictA "A" = groupTotal evA dictA "A" ↔
      groupChildSum evA dictA "A" = 0) :=
  c6_excl_le_total evA dictA "A" (by decide) (by decide)

/-- Counterexample for C6 as stated: with a zero-duration child `[5,5]`
nested in parent `[0,10]`, the parent group "A" has an attributed child,
yet its exclusive cycles equal its total cycles — equality does not imply
the absence of attributed children. -/
theorem c6_counterexample :
    groupExclCycles evZeroChild dictZeroChild "A" =
      groupTotal evZeroChild dictZeroChild "A" ∧
    (groupRows evZeroChild dictZeroChild "A").any (fun r => r.2.1.isSome) = true := by
  constructor <;> decide

instance : IsTotal AggRow rowGE :=
  ⟨by
    intro a b
    unfold rowGE
    rcases a.excl with _ | x <;> rcases b.excl with _ | y <;> simp [exclGEb]
    exact le_total y x⟩

instance : IsTrans AggRow rowGE :=
  ⟨by
    intro a b c hab hbc
    unfold rowGE at hab hbc ⊢
    revert hab hbc
    rcases a.excl with _ | x <;> rcases b.excl with _ | y <;>
      rcases c.excl with _ | z <;> simp [exclGEb] <;> omega⟩

/-- C7 (amended): a list sorted by the `excl` column descending (NULLs
last) and permuting the grouped rows always exists: the canonical
insertion sort of the grouped rows is such an output.  The relative order
of rows with equal `excl` is not determined by `ORDER BY excl DESC`. -/
theorem c7_sorted_output (evts : List ZoneEvent) (dict : List TextRow) :
    orderedOutput evts dict (List.insertionSort rowGE (aggRows evts dict)) :=
  ⟨(List.perm_insertionSort rowGE (aggRows evts dict)).symm,
   List.sorted_insertionSort rowGE (aggRows evts dict)⟩

/-- Counterexample for C7 as stated: two root zones of equal duration tie
on `excl`, and both the grouped order and its reverse satisfy the ordering
constraint of the query — the code's `ORDER BY excl DESC` has no name
tie-break and does not determine a unique output order. -/
theorem c7_counterexample :
    orderedOutput evTied dictTied (aggRows evTied dictTied) ∧
    orderedOutput evTied dictTied ((aggRows evTied dictTied).reverse) ∧
    (aggRows evTied dictTied).reverse ≠ aggRows evTied dictTied := by
  refine ⟨⟨?_, ?_⟩, ⟨?_, ?_⟩, ?_⟩ <;> decide

/-- C10 (amended): an event whose `fullname_id` has no dictionary entry
contributes nothing at all to the inclusive-totals report, and produces no
output row of its own in the exclusive-totals report (every reported name
comes from a dictionary entry matching some event's id).  Its duration can
still reach an exclusive-totals row as an attributed child, see the
counterexample. -/
theorem c10_unknown_name_id :
    (∀ (dict : List TextRow) (evts1 evts2 : List ZoneEvent) (e : ZoneEvent),
        textMatches dict e.fullname_id = [] →
        zoneTotalsRows (evts1 ++ e :: evts2) dict =
          zoneTotalsRows (evts1 ++ evts2) dict) ∧
    (∀ (evts : List ZoneEvent) (dict : List TextRow) (r : AggRow),
        r ∈ aggRows evts dict →
        ∃ p ∈ evts, ∃ t ∈ dict, t.1 = p.fullname_id ∧ r.name = t.2) := by
  constructor
  · intro dict evts1 evts2 e he
    have hj : totalsJoinRows (evts1 ++ e :: evts2) dict =
        totalsJoinRows (evts1 ++ evts2) dict := by
      unfold totalsJoinRows
      rw [List.flatMap_append, List.flatMap_cons, List.flatMap_append, he]
      simp
    unfold zoneTotalsRows
    rw [hj]
  · intro evts dict r hr
    unfold aggRows at hr
    rcases List.mem_map.mp hr with ⟨n, hn, rfl⟩
    unfold groupNames at hn
    rw [mem_distinctVals] at hn
    rcases List.mem_map.mp hn with ⟨jr, hjr, hname⟩
    rcases joinedRows_mem_elim hjr with ⟨hp, _, t, htd, hteq, hjn⟩
    refine ⟨jr.1, hp, t, htd, hteq, ?_⟩
    have hmk : (mkAggRow evts dict n).name = n := rfl
    rw [hmk, ← hname, hjn]

/-- Witness for C10: dropping the unnamed event `[10,60]` (id 99) leaves
the inclusive-totals rows unchanged, and the single exclusive-totals row of
`evOrphan` is named by the dictionary entry of a present event. -/
theorem c10_witness :
    zoneTotalsRows ([] ++ (⟨10, 60, 1, 0, 99⟩ : ZoneEvent) :: [⟨0, 100, 0, 0, 1⟩])
        dictOrphan =
      zoneTotalsRows ([] ++ [⟨0, 100, 0, 0, 1⟩]) dictOrphan ∧
    ∃ p ∈ evOrphan, ∃ t ∈ dictOrphan, t.1 = p.fullname_id ∧
      (mkAggRow evOrphan dictOrphan "A").name = t.2 :=
  ⟨c10_unknown_name_id.1 dictOrphan [] [⟨0, 100, 0, 0, 1⟩] ⟨10, 60, 1, 0, 99⟩
     (by decide),
   c10_unknown_name_id.2 evOrphan dictOrphan (mkAggRow evOrphan dictOrphan "A")
     (by decide)⟩

/-- Counterexample for C10 as stated: the event `[10,60]` with unknown name
id 99 is dropped as an output row, but the exclusive-totals report of
`evOrphan` attributes its 50 cycles as a child of "A", whose `excl` ratio
becomes 50000 instead of the 100000 reported without that event — so its
duration does contribute to a reported row. -/
theorem c10_counterexample :
    lookupText dictOrphan 99 = none ∧
    aggRows evOrphan dictOrphan = [⟨some 50000, some 100000, 1, "A", 0, 1, 0, 0⟩] ∧
    aggRows [⟨0, 100, 0, 0, 1⟩] dictOrphan =
      [⟨some 100000, some 100000, 1, "A", 0, 1, 0, 0⟩] ∧
    aggRows evOrphan dictOrphan ≠ aggRows [⟨0, 100, 0, 0, 1⟩] dictOrphan :=
  ⟨rfl, by decide, by decide, by decide⟩
